import Mathlib

/-!
# Verification of the x-bot repository core

Shallow embedding of the repository's core subsystems:

* the contributor ledger and event classifier (`src/bot.rs`),
* ledger seeding from paginated commit history (`src/github.rs`),
* the etag-cursored poll loop (`src/github.rs`),
* the retrying post client (`src/x.rs`),
* the rate-limited post client prototype (`src/x/client.rs`),
* the inbound webhook dispatcher (`src/webhook/handler.rs`).

Rust `HashSet<String>` is modelled as a duplicate-free `List String`;
`insert` returns whether the element was newly inserted, as in Rust.
-/

namespace XBot

/-- Model of Rust's `HashSet<String>::insert`: returns `true` and adds the
key iff it was absent. -/
def hsInsert (s : List String) (k : String) : Bool × List String :=
  if s.contains k then (false, s) else (true, k :: s)

/-- `octocrab::models::repos::CommitAuthor` (the fields used by the bot). -/
structure CommitAuthor where
  name : String
  email : String
deriving DecidableEq, Repr

/-- A commit inside a `PushEvent` payload (`distinct`, `author`, `message`,
`url` are the fields `filter_github_event` reads). -/
structure PushCommit where
  author : CommitAuthor
  message : String
  url : String
  distinct : Bool
deriving DecidableEq, Repr

/-- `octocrab::models::events::payload::ReleaseEventAction`. -/
inductive ReleaseEventAction where
  | published
  | unpublished
  | created
  | edited
  | deleted
  | prereleased
  | released
deriving DecidableEq, Repr

/-- The release object inside a `ReleaseEvent` payload (fields read by
`filter_github_event`: `name`, `tag_name`, `html_url`). -/
structure Release where
  name : Option String
  tag_name : String
  html_url : String
deriving DecidableEq, Repr

/-- `ReleaseEvent` payload: an action plus the release object. -/
structure ReleasePayload where
  action : ReleaseEventAction
  release : Release
deriving DecidableEq, Repr

/-- The event payload variants `filter_github_event` distinguishes; every
other octocrab payload kind falls into `other`. -/
inductive EventPayload where
  | pushEvent (commits : List PushCommit)
  | releaseEvent (payload : ReleasePayload)
  | other
deriving DecidableEq, Repr

/-- `octocrab::models::events::payload::WrappedEventPayload`: the bot only
reads its `specific` field. -/
structure WrappedEventPayload where
  specific : Option EventPayload
deriving DecidableEq, Repr

/-- `NewContributor` announcement record (`src/lib` data model used by
`bot.rs`). -/
structure NewContributor where
  name : String
  commit_message : String
  url : String
deriving DecidableEq, Repr

/-- `NewRelease` announcement record. -/
structure NewRelease where
  version : String
  url : String
deriving DecidableEq, Repr

/-- `Announcement`: tagged union produced by the classifier. -/
inductive Announcement where
  | contributor (news : List NewContributor)
  | release (r : NewRelease)
deriving DecidableEq, Repr

/-- `bot::is_first_contribution` (src/bot.rs:70-83): insert the author's
email into the ledger, returning whether it was newly inserted, together
with the mutated ledger (the Rust function mutates in place). -/
def is_first_contribution (announced_contributors : List String)
    (author : CommitAuthor) : Bool × List String :=
  hsInsert announced_contributors author.email

/-- The commit pipeline of the push branch of `filter_github_event`
(src/bot.rs:29-41): iterate commits left to right, keep those with
`distinct` set, test each with `is_first_contribution` (which mutates the
ledger), and map survivors to `NewContributor` records. -/
def processCommits : List PushCommit → List String →
    List NewContributor × List String
  | [], s => ([], s)
  | c :: cs, s =>
    if c.distinct then
      match is_first_contribution s c.author with
      | (true, s') =>
        let (rest, sF) := processCommits cs s'
        (⟨c.author.name, c.message, c.url⟩ :: rest, sF)
      | (false, s') => processCommits cs s'
    else processCommits cs s

/-- `bot::filter_github_event` (src/bot.rs:24-52): classify one event,
mutating the ledger on the push path. -/
def filter_github_event (announced_contributors : List String)
    (event : WrappedEventPayload) : Option Announcement × List String :=
  match event.specific with
  | some (.pushEvent commits) =>
    let (news, s') := processCommits commits announced_contributors
    (some (.contributor news), s')
  | some (.releaseEvent payload) =>
    if payload.action = .published then
      (some (.release ⟨payload.release.name.getD payload.release.tag_name,
        payload.release.html_url⟩), announced_contributors)
    else (none, announced_contributors)
  | _ => (none, announced_contributors)

/-- Specification-side selection (refinement target for C1, written from the
claim's words): the commits of a push that are flagged distinct and whose
author identity is not already in the contributor ledger, the ledger being
extended as commits are selected, in original commit order. -/
def selectedCommits : List PushCommit → List String → List PushCommit
  | [], _ => []
  | c :: cs, s =>
    if c.distinct && !s.contains c.author.email then
      c :: selectedCommits cs (c.author.email :: s)
    else
      selectedCommits cs s

/-- Ledger left by `processCommits` (for stating monotonicity). -/
def ledgerAfterCommits (cs : List PushCommit) (s : List String) :
    List String :=
  (processCommits cs s).2

/-- The `NewContributor` record built from a commit (src/bot.rs:36-40). -/
def mkNC (c : PushCommit) : NewContributor :=
  ⟨c.author.name, c.message, c.url⟩

/-- Fold `filter_github_event` over a sequence of events, collecting every
produced announcement in order (the bot's receive loop, src/bot.rs:17-21,
with posting ignored: posting does not touch the ledger). -/
def processEvents : List WrappedEventPayload → List String →
    List Announcement × List String
  | [], s => ([], s)
  | e :: es, s =>
    match filter_github_event s e with
    | (some a, s') =>
      let (rest, sF) := processEvents es s'
      (a :: rest, sF)
    | (none, s') => processEvents es s'

/-- All commits selected for announcement across a sequence of events. -/
def selectedAcross : List WrappedEventPayload → List String →
    List PushCommit
  | [], _ => []
  | e :: es, s =>
    match e.specific with
    | some (.pushEvent commits) =>
      selectedCommits commits s ++
        selectedAcross es (ledgerAfterCommits commits s)
    | _ => selectedAcross es (filter_github_event s e).2

/-! ## Ledger seeding from paginated commit history (`src/github.rs`) -/

/-- Modelled from the spec: the external Event Source Adapter's paginated
commit history (`list_commit_history(branch, page) -> page of {author, …}`,
spec §6) — the adapter itself is octocrab/GitHub, not code of this
repository. `pages` lists the 1-indexed pages of the tracked branch's
history, each commit carrying an optional author (`RepoCommit.commit.author`
is optional). GitHub REST pagination: the `page` query parameter is a
1-based page number (`page=0` is served as page 1), a page number past the
end yields an empty page, and a `next` link is present iff a later page
exists. -/
structure CommitHistory where
  pages : List (List (Option CommitAuthor))
deriving Repr

/-- `github::Client::fetch_commit_page` (src/github.rs:131-149) against the
modelled adapter: returns the page served for `page_index` and whether the
response carried a `next` link (`page.next.is_some()`). -/
def fetch_commit_page (history : CommitHistory) (page_index : Nat) :
    List (Option CommitAuthor) × Bool :=
  let p := max page_index 1
  (history.pages.getD (p - 1) [], p < history.pages.length)

/-- One `while has_next_page` loop of `gather_announced_contributors`
(src/github.rs:59-82): fetch the page at `page_index`, insert every present
author's email, and continue at `page_index + per_page` while the fetched
page had a `next` link. `fuel` bounds the number of fetches;
`pages.length + 1` fetches suffice whenever `per_page ≥ 1`, because the
page index starts at 0 and strictly increases. -/
def gatherLoop (history : CommitHistory) (per_page : Nat) :
    Nat → Nat → List String → List String
  | 0, _, acc => acc
  | fuel + 1, page_index, acc =>
    let (page, has_next) := fetch_commit_page history page_index
    let acc' := page.foldl
      (fun a author? =>
        match author? with
        | some author => (hsInsert a author.email).2
        | none => a) acc
    if has_next then gatherLoop history per_page fuel (page_index + per_page) acc'
    else acc'

/-- `github::Client::gather_announced_contributors` (src/github.rs:59-82):
page index starts at 0 and is advanced by `per_page` after every fetch. -/
def gather_announced_contributors (history : CommitHistory)
    (per_page : Nat) : List String :=
  gatherLoop history per_page (history.pages.length + 1) 0 []

/-- The author emails present anywhere in the branch's commit history. -/
def historyAuthorEmails (history : CommitHistory) : List String :=
  (history.pages.flatten.filterMap id).map CommitAuthor.email

/-! ## The etag-cursored poll loop (`src/github.rs:84-129`) -/

/-- `octocrab::etag::Etagged<Page<Event>>`: the etag of the response and the
page body (`None` on HTTP 304 "not modified"). Each event carries an
optional payload (`Event.payload`), mirrored by `Option`. -/
structure Etagged where
  etag : Option String
  value : Option (List (Option WrappedEventPayload))
deriving DecidableEq, Repr

/-- Outcome of one `fetch_event_page` call. -/
inductive FetchResult where
  | fetchErr
  | fetchOk (response : Etagged)
deriving DecidableEq, Repr

/-- One cycle of the loop in `start_poll_events` (src/github.rs:96-125):
on a fetch error the etag is untouched and nothing is forwarded; on success
the forwarded items are `etag.and(events.value)` flattened and filtered to
payload-bearing events, after which `etag = events.etag`. Returns the
forwarded payloads (in order) and the cursor for the next cycle. -/
def pollStep (etag : Option String) (result : FetchResult) :
    List WrappedEventPayload × Option String :=
  match result with
  | .fetchErr => ([], etag)
  | .fetchOk response =>
    let forwarded :=
      match etag, response.value with
      | some _, some events => events.filterMap id
      | _, _ => []
    (forwarded, response.etag)

/-- The poll loop over a sequence of fetch outcomes: per-cycle forwarded
payload batches, and the final cursor. -/
def runPoll : Option String → List FetchResult →
    List (List WrappedEventPayload) × Option String
  | etag, [] => ([], etag)
  | etag, r :: rs =>
    let (fwd, etag') := pollStep etag r
    let (rest, etagF) := runPoll etag' rs
    (fwd :: rest, etagF)

/-! ## The retrying post client (`src/x.rs`) -/

/-- Outcome of one `send_post` call (src/x.rs:121-131): success, an error
carrying an HTTP status (after `error_for_status`), or a transport error
without a status. -/
inductive SendOutcome where
  | ok
  | errStatus (status : Nat)
  | errNoStatus
deriving DecidableEq, Repr

/-- `error.status().filter(|s| s.is_client_error()).is_some()`
(src/x.rs:103-107): the error carries a 4xx status. -/
def isClientError : SendOutcome → Bool
  | .errStatus status => 400 ≤ status && status ≤ 499
  | _ => false

/-- Observable behaviour of one `post_tweet` call: number of `send_post`
attempts made, the sleeps executed (in seconds, in order), and whether a
send succeeded. -/
structure PostLog where
  attempts : Nat
  sleeps : List Nat
  success : Bool
deriving DecidableEq, Repr

/-- The `for attempts in 1..=max_attempts` loop of `post_tweet`
(src/x.rs:95-119), with `responses k` the outcome of the `k`-th send:
return on success, `break` (before the sleep) on a client-error status,
otherwise `sleep(3 * attempts)` and continue. -/
def postAttempts (responses : Nat → SendOutcome) :
    Nat → Nat → PostLog
  | _, 0 => ⟨0, [], false⟩
  | attempt, remaining + 1 =>
    match responses attempt with
    | .ok => ⟨1, [], true⟩
    | e =>
      if isClientError e then ⟨1, [], false⟩
      else
        let rest := postAttempts responses (attempt + 1) remaining
        ⟨rest.attempts + 1, (3 * attempt) :: rest.sleeps, rest.success⟩

/-- `x::Client::post_tweet` (src/x.rs:95-119). -/
def post_tweet (max_attempts : Nat) (responses : Nat → SendOutcome) :
    PostLog :=
  postAttempts responses 1 max_attempts

/-- `max_attempts: config.max_retries.map(|r| r + 1).unwrap_or(1)`
(src/x.rs:91). -/
def clientMaxAttempts (max_retries : Option Nat) : Nat :=
  (max_retries.map (· + 1)).getD 1

/-! ## The rate-limited post client prototype (`src/x/client.rs`) -/

/-- `const RATE_LIMIT_WINDOW: u64 = 15 * 60` (src/x/client.rs:11). -/
def RATE_LIMIT_WINDOW : Nat := 15 * 60

/-- `const TWEETS_PER_WINDOW: u64 = 50` (src/x/client.rs:12). -/
def TWEETS_PER_WINDOW : Nat := 50

/-- `u64` subtraction `a - b` (wrapping, as in release-mode Rust), for
operands below `2^64`. -/
def sub64 (a b : Nat) : Nat := (a + 2 ^ 64 - b) % 2 ^ 64

/-- The `XClient` rate-limit state: `tweet_count` and `window_start`
(seconds since epoch), both `u64` (src/x/client.rs:16-18). -/
structure RLState where
  tweet_count : Nat
  window_start : Nat
deriving DecidableEq, Repr

/-- The rate-limiting check at the head of `send_tweet`
(src/x/client.rs:91-104), parameterised by the capacity and window-length
constants: if the window has expired, reset the counter and window start;
else if the counter has reached capacity, sleep `window - (now - start)`
seconds, then store `window_start := now` (the pre-sleep `now`) and reset
the counter. Returns the seconds slept and the state after the check. -/
def rateLimitCheck (cap window : Nat) (st : RLState) (now : Nat) :
    Nat × RLState :=
  if window ≤ sub64 now st.window_start then (0, ⟨0, now⟩)
  else if cap ≤ st.tweet_count then
    (window - sub64 now st.window_start, ⟨0, now⟩)
  else (0, st)

/-- A successful `send_tweet` call at time `now` (src/x/client.rs:84-119):
the rate-limit check, then the post (assumed to succeed), then
`tweet_count.fetch_add(1)`. Returns the seconds the caller was blocked and
the new state. -/
def send_tweet (cap window : Nat) (st : RLState) (now : Nat) :
    Nat × RLState :=
  let (w, st') := rateLimitCheck cap window st now
  (w, ⟨st'.tweet_count + 1, st'.window_start⟩)

/-- Sequential successful sends at the given timestamps: the per-call block
durations and the final state. -/
def runSends (cap window : Nat) : RLState → List Nat → List Nat × RLState
  | st, [] => ([], st)
  | st, now :: rest =>
    let (w, st') := send_tweet cap window st now
    let (ws, stF) := runSends cap window st' rest
    (w :: ws, stF)

/-! ## The inbound webhook surface (`src/webhook/handler.rs`) -/

/-- The HTTP statuses `handle_webhook` can answer with. -/
inductive HttpStatus where
  | ok
  | badRequest
  | unprocessableEntity
  | notImplemented
  | internalServerError
deriving DecidableEq, Repr

/-- `webhook::handler::handle_webhook` (src/webhook/handler.rs:168-228),
abstracted over the request: `eventType` is the `x-github-event` header
(absent ⇒ 400); `parsesPing`/`parsesPush`/`parsesRelease` say whether the
body deserialises as the corresponding event type (failure ⇒ 422);
`pushHandlerOk`/`releaseHandlerOk` say whether the invoked handler returned
`Ok` (error ⇒ 500). Unmatched event types answer 501. -/
def handle_webhook (eventType : Option String)
    (parsesPing parsesPush parsesRelease : Bool)
    (pushHandlerOk releaseHandlerOk : Bool) : HttpStatus :=
  match eventType with
  | none => .badRequest
  | some t =>
    if t = "ping" then
      if parsesPing then .ok else .unprocessableEntity
    else if t = "push" then
      if parsesPush then
        (if pushHandlerOk then .ok else .internalServerError)
      else .unprocessableEntity
    else if t = "release" then
      if parsesRelease then
        (if releaseHandlerOk then .ok else .internalServerError)
      else .unprocessableEntity
    else .notImplemented

/-- The webhook's `Release` object (src/github/types.rs:71-74). -/
structure WebhookRelease where
  tag_name : String
  name : Option String
  html_url : String
deriving DecidableEq, Repr

/-- The webhook's `ReleaseEvent` (src/github/types.rs:64-69, fields read by
`handle_release`). -/
structure WebhookReleaseEvent where
  action : String
  release : WebhookRelease
deriving DecidableEq, Repr

/-- `WebhookHandler::handle_release` (src/webhook/handler.rs:123-145):
nothing is posted unless `action == "published"`; otherwise the tweet is
formatted from `event.release.tag_name` (the display name is not consulted)
and `event.release.html_url`. Returns the (version label, url) pair the
tweet is formatted from, or `none` when no tweet is attempted. -/
def handle_release (event : WebhookReleaseEvent) : Option (String × String) :=
  if event.action ≠ "published" then none
  else some (event.release.tag_name, event.release.html_url)

/-! ## The bot pipeline with posting (`src/bot.rs:15-22`, `src/x.rs`) -/

/-- Number of `post_tweet` calls `tweet_announcement` makes for an
announcement (src/bot.rs:54-68): one per new contributor, one per
release. -/
def tweetCalls : Announcement → Nat
  | .contributor news => news.length
  | .release _ => 1

/-- The `post_tweet` logs for one announcement, with `oracle i` the
send-outcome sequence of the `i`-th post overall (`startIdx` posts were
made before this announcement). -/
def postLogsFor (max_attempts : Nat) (oracle : Nat → Nat → SendOutcome)
    (startIdx : Nat) : Announcement → List PostLog
  | .contributor news =>
    (List.range news.length).map
      (fun j => post_tweet max_attempts (oracle (startIdx + j)))
  | .release _ => [post_tweet max_attempts (oracle startIdx)]

/-- The bot's receive loop (src/bot.rs:17-21): classify each event with
`filter_github_event` (mutating the ledger), then post every resulting
announcement with `tweet_announcement`, whose outcomes are drawn from
`oracle` and whose return value carries no data back into the loop.
Returns the final ledger and the post logs. -/
def botLoop (max_attempts : Nat) (oracle : Nat → Nat → SendOutcome) :
    List String → Nat → List WrappedEventPayload →
    List String × List PostLog
  | s, _, [] => (s, [])
  | s, idx, e :: es =>
    match filter_github_event s e with
    | (some a, s') =>
      let logs := postLogsFor max_attempts oracle idx a
      let (sF, rest) := botLoop max_attempts oracle s' (idx + tweetCalls a) es
      (sF, logs ++ rest)
    | (none, s') => botLoop max_attempts oracle s' idx es

/-! ## Helper lemmas -/

lemma processCommits_fst (cs : List PushCommit) (s : List String) :
    (processCommits cs s).1 = (selectedCommits cs s).map mkNC := by
  induction cs generalizing s with
  | nil => rfl
  | cons c cs ih =>
    simp only [processCommits, selectedCommits, is_first_contribution,
      hsInsert, mkNC]
    by_cases hd : c.distinct = true
    · by_cases hc : c.author.email ∈ s
      · simp [hd, hc, ih]
      · simp [hd, hc, ih, mkNC]
    · simp [hd, ih]

lemma processCommits_snd (cs : List PushCommit) (s : List String) :
    (processCommits cs s).2 =
      ((selectedCommits cs s).reverse.map (fun c => c.author.email)) ++ s := by
  induction cs generalizing s with
  | nil => rfl
  | cons c cs ih =>
    simp only [processCommits, selectedCommits, is_first_contribution,
      hsInsert]
    by_cases hd : c.distinct = true
    · by_cases hc : c.author.email ∈ s
      · simp [hd, hc, ih]
      · simp [hd, hc, ih]
    · simp [hd, ih]

lemma selectedCommits_sublist (cs : List PushCommit) (s : List String) :
    (selectedCommits cs s).Sublist cs := by
  induction cs generalizing s with
  | nil => simp [selectedCommits]
  | cons c cs ih =>
    simp only [selectedCommits]
    by_cases h : (c.distinct && !s.contains c.author.email) = true
    · rw [if_pos h]
      exact List.Sublist.cons₂ c (ih (c.author.email :: s))
    · rw [if_neg h]
      exact List.Sublist.cons c (ih s)

lemma selectedCommits_avoids (cs : List PushCommit) (s : List String)
    (i : String) (hi : i ∈ s) :
    ∀ c ∈ selectedCommits cs s, c.author.email ≠ i := by
  induction cs generalizing s with
  | nil => simp [selectedCommits]
  | cons c cs ih =>
    simp only [selectedCommits]
    split
    case isTrue h =>
      simp only [Bool.and_eq_true, Bool.not_eq_true'] at h
      intro c' hc'
      rcases List.mem_cons.mp hc' with rfl | hc'
      · refine fun he => absurd (he ▸ hi) ?_
        simpa using h.2
      · exact ih (c.author.email :: s) (List.mem_cons_of_mem _ hi) c' hc'
    case isFalse h =>
      exact ih s hi

lemma selectedCommits_mem_ledger (cs : List PushCommit) (s : List String) :
    ∀ c ∈ selectedCommits cs s, c.author.email ∈ (processCommits cs s).2 := by
  intro c hc
  rw [processCommits_snd]
  exact List.mem_append_left _
    (List.mem_map_of_mem _ (List.mem_reverse.mpr hc))

lemma filter_ledger_mono (s : List String) (e : WrappedEventPayload)
    (i : String) (hi : i ∈ s) : i ∈ (filter_github_event s e).2 := by
  rcases e with ⟨spec⟩
  rcases spec with _ | p
  · exact hi
  rcases p with commits | payload | _
  · simp only [filter_github_event, processCommits_snd]
    exact List.mem_append_right _ hi
  · simp only [filter_github_event]
    split <;> exact hi
  · exact hi

lemma selectedAcross_avoids (es : List WrappedEventPayload)
    (s : List String) (i : String) (hi : i ∈ s) :
    ∀ c ∈ selectedAcross es s, c.author.email ≠ i := by
  induction es generalizing s with
  | nil => simp [selectedAcross]
  | cons e es ih =>
    rcases e with ⟨spec⟩
    rcases spec with _ | p
    · exact ih _ (filter_ledger_mono s ⟨none⟩ i hi)
    rcases p with commits | payload | _
    · intro c hc
      simp only [selectedAcross] at hc
      rcases List.mem_append.mp hc with hc | hc
      · exact selectedCommits_avoids commits s i hi c hc
      · refine ih (ledgerAfterCommits commits s) ?_ c hc
        unfold ledgerAfterCommits
        rw [processCommits_snd]
        exact List.mem_append_right _ hi
    · exact ih _ (filter_ledger_mono s ⟨some (.releaseEvent payload)⟩ i hi)
    · exact ih _ (filter_ledger_mono s ⟨some .other⟩ i hi)

lemma botLoop_ledger (es : List WrappedEventPayload) (ma : Nat)
    (oracle : Nat → Nat → SendOutcome) (s : List String) (idx : Nat) :
    (botLoop ma oracle s idx es).1 = (processEvents es s).2 := by
  induction es generalizing s idx with
  | nil => rfl
  | cons e es ih =>
    rcases hfe : filter_github_event s e with ⟨a?, s'⟩
    cases a? with
    | some a =>
      simp only [botLoop, processEvents, hfe]
      exact ih s' _
    | none =>
      simp only [botLoop, processEvents, hfe]
      exact ih s' idx

lemma processEvents_contrib (es : List WrappedEventPayload)
    (s : List String) (ncs : List NewContributor)
    (hmem : Announcement.contributor ncs ∈ (processEvents es s).1) :
    ∀ nc ∈ ncs, ∃ c, c ∈ selectedAcross es s ∧ nc = mkNC c := by
  induction es generalizing s with
  | nil => simp [processEvents] at hmem
  | cons e es ih =>
    rcases e with ⟨spec⟩
    rcases spec with _ | p
    · simp only [processEvents, filter_github_event] at hmem
      intro nc hnc
      obtain ⟨c, hcmem, hce⟩ := ih _ hmem nc hnc
      exact ⟨c, by simpa only [selectedAcross, filter_github_event]
        using hcmem, hce⟩
    rcases p with commits | payload | _
    · simp only [processEvents, filter_github_event] at hmem
      rcases List.mem_cons.mp hmem with heq | hmem'
      · have hncs : ncs = (selectedCommits commits s).map mkNC := by
          have h := heq
          simp only [Announcement.contributor.injEq] at h
          rw [h, processCommits_fst]
        intro nc hnc
        rw [hncs] at hnc
        obtain ⟨c, hcmem, hce⟩ := List.mem_map.mp hnc
        refine ⟨c, ?_, hce.symm⟩
        simp only [selectedAcross]
        exact List.mem_append_left _ hcmem
      · intro nc hnc
        obtain ⟨c, hcmem, hce⟩ := ih _ hmem' nc hnc
        refine ⟨c, ?_, hce⟩
        simp only [selectedAcross]
        exact List.mem_append_right _ hcmem
    · by_cases hact : payload.action = .published
      · simp only [processEvents, filter_github_event, hact, if_true] at hmem
        rcases List.mem_cons.mp hmem with heq | hmem'
        · exact absurd heq (by simp)
        · intro nc hnc
          obtain ⟨c, hcmem, hce⟩ := ih _ hmem' nc hnc
          refine ⟨c, ?_, hce⟩
          simpa only [selectedAcross, filter_github_event, hact,
            if_true] using hcmem
      · simp only [processEvents, filter_github_event, hact, if_false] at hmem
        intro nc hnc
        obtain ⟨c, hcmem, hce⟩ := ih _ hmem nc hnc
        refine ⟨c, ?_, hce⟩
        simpa only [selectedAcross, filter_github_event, hact,
          if_false] using hcmem
    · simp only [processEvents, filter_github_event] at hmem
      intro nc hnc
      obtain ⟨c, hcmem, hce⟩ := ih _ hmem nc hnc
      exact ⟨c, by simpa only [selectedAcross, filter_github_event]
        using hcmem, hce⟩

/-! ## Claim theorems -/

/-- C1: For every push activity, exactly those commits that are flagged
distinct and whose author identity is not already in the contributor ledger
(`selectedCommits`, transcribing the claim's words) yield Contributor
Announcement entries carrying the author's display name, commit message and
commit URL, in original commit order (the selection is a sublist of the
push's commit list); and across any sequence of push activities, every
announced contributor entry arises from a selected commit whose author
identity differs from every identity `i` already in the ledger — in
particular an identity present in the seeded ledger never yields an
announcement, however often its commits reappear. -/
theorem claim_C1 (s : List String) (commits : List PushCommit)
    (i : String) (es : List WrappedEventPayload) (hi : i ∈ s) :
    (filter_github_event s ⟨some (.pushEvent commits)⟩).1 =
      some (.contributor ((selectedCommits commits s).map mkNC))
    ∧ (selectedCommits commits s).Sublist commits
    ∧ (∀ ncs, Announcement.contributor ncs ∈ (processEvents es s).1 →
        ∀ nc ∈ ncs, ∃ c, c ∈ selectedAcross es s ∧ nc = mkNC c ∧
          c.author.email ≠ i) := by
  refine ⟨?_, selectedCommits_sublist commits s, ?_⟩
  · simp only [filter_github_event, processCommits_fst]
  · intro ncs hncs nc hnc
    obtain ⟨c, hcmem, hce⟩ := processEvents_contrib es s ncs hncs nc hnc
    exact ⟨c, hcmem, hce, selectedAcross_avoids es s i hi c hcmem⟩

/-- C1 witness: seeded ledger `["alice@x"]`; one push with a distinct commit
by alice and a distinct commit by bob. -/
theorem claim_C1_witness :
    "alice@x" ∈ ["alice@x"]
    ∧ ((filter_github_event ["alice@x"]
        ⟨some (.pushEvent
          [⟨⟨"Alice", "alice@x"⟩, "m1", "u1", true⟩,
           ⟨⟨"Bob", "bob@x"⟩, "m2", "u2", true⟩])⟩).1 =
      some (.contributor ((selectedCommits
          [⟨⟨"Alice", "alice@x"⟩, "m1", "u1", true⟩,
           ⟨⟨"Bob", "bob@x"⟩, "m2", "u2", true⟩] ["alice@x"]).map mkNC))
    ∧ (selectedCommits
          [⟨⟨"Alice", "alice@x"⟩, "m1", "u1", true⟩,
           ⟨⟨"Bob", "bob@x"⟩, "m2", "u2", true⟩] ["alice@x"]).Sublist
          [⟨⟨"Alice", "alice@x"⟩, "m1", "u1", true⟩,
           ⟨⟨"Bob", "bob@x"⟩, "m2", "u2", true⟩]
    ∧ (∀ ncs, Announcement.contributor ncs ∈
        (processEvents
          [⟨some (.pushEvent
            [⟨⟨"Alice", "alice@x"⟩, "m1", "u1", true⟩,
             ⟨⟨"Bob", "bob@x"⟩, "m2", "u2", true⟩])⟩] ["alice@x"]).1 →
        ∀ nc ∈ ncs, ∃ c, c ∈ selectedAcross
          [⟨some (.pushEvent
            [⟨⟨"Alice", "alice@x"⟩, "m1", "u1", true⟩,
             ⟨⟨"Bob", "bob@x"⟩, "m2", "u2", true⟩])⟩] ["alice@x"]
          ∧ nc = mkNC c ∧ c.author.email ≠ "alice@x")) :=
  ⟨by decide,
    claim_C1 ["alice@x"]
      [⟨⟨"Alice", "alice@x"⟩, "m1", "u1", true⟩,
       ⟨⟨"Bob", "bob@x"⟩, "m2", "u2", true⟩]
      "alice@x"
      [⟨some (.pushEvent
        [⟨⟨"Alice", "alice@x"⟩, "m1", "u1", true⟩,
         ⟨⟨"Bob", "bob@x"⟩, "m2", "u2", true⟩])⟩]
      (by decide)⟩

/-- C2 counterexample: for an identity already present in the ledger, two
successive calls of `record_if_new` (`is_first_contribution`) both return
`false` — `true` is returned zero times across the two calls, refuting
"for any identity, two calls return true exactly once (first call true,
second false)". -/
theorem claim_C2_counterexample :
    (is_first_contribution ["alice@x"] ⟨"Alice", "alice@x"⟩).1 = false
    ∧ (is_first_contribution
        (is_first_contribution ["alice@x"] ⟨"Alice", "alice@x"⟩).2
        ⟨"Alice", "alice@x"⟩).1 = false := by
  decide

/-- C2 (amended): `record_if_new` returns `true` iff the identity was
absent at the moment of the call, and inserts it; the second of two calls
with the same identity always returns `false`, so `true` is returned at
most once across the two calls — exactly once iff the identity was
initially absent (first call `true`, second `false`); and the ledger never
holds two entries for the same key (insertion preserves freedom from
duplicates). -/
theorem claim_C2_amended (s : List String) (a : CommitAuthor) :
    ((is_first_contribution s a).1 = true ↔ a.email ∉ s)
    ∧ a.email ∈ (is_first_contribution s a).2
    ∧ (is_first_contribution (is_first_contribution s a).2 a).1 = false
    ∧ (a.email ∉ s → (is_first_contribution s a).1 = true ∧
        (is_first_contribution (is_first_contribution s a).2 a).1 = false)
    ∧ (s.Nodup → ((is_first_contribution s a).2).Nodup) := by
  by_cases h : a.email ∈ s
  · refine ⟨by simp [is_first_contribution, hsInsert, h], ?_, ?_, ?_, ?_⟩
    · simp [is_first_contribution, hsInsert, h]
    · simp [is_first_contribution, hsInsert, h]
    · exact fun hna => absurd h hna
    · simp [is_first_contribution, hsInsert, h]
  · refine ⟨by simp [is_first_contribution, hsInsert, h], ?_, ?_, ?_, ?_⟩
    · simp [is_first_contribution, hsInsert, h]
    · simp [is_first_contribution, hsInsert, h]
    · exact fun _ => ⟨by simp [is_first_contribution, hsInsert, h],
        by simp [is_first_contribution, hsInsert, h]⟩
    · intro hnd
      simp only [is_first_contribution, hsInsert]
      simp [h, hnd]

/-- C2 witness: a fresh identity on the empty ledger. -/
theorem claim_C2_amended_witness :
    ((is_first_contribution [] ⟨"Bob", "bob@x"⟩).1 = true ↔
        "bob@x" ∉ ([] : List String))
    ∧ "bob@x" ∈ (is_first_contribution [] ⟨"Bob", "bob@x"⟩).2
    ∧ (is_first_contribution
        (is_first_contribution [] ⟨"Bob", "bob@x"⟩).2 ⟨"Bob", "bob@x"⟩).1
        = false
    ∧ ("bob@x" ∉ ([] : List String) →
        (is_first_contribution [] ⟨"Bob", "bob@x"⟩).1 = true ∧
        (is_first_contribution
          (is_first_contribution [] ⟨"Bob", "bob@x"⟩).2
          ⟨"Bob", "bob@x"⟩).1 = false)
    ∧ (([] : List String).Nodup →
        ((is_first_contribution [] ⟨"Bob", "bob@x"⟩).2).Nodup) :=
  claim_C2_amended [] ⟨"Bob", "bob@x"⟩

/-- C10: the ledger mutation is decoupled from publishing — the ledger left
by the bot loop equals the ledger of pure classification, independent of
the retry budget and of every posting outcome (so it is unchanged even when
every posting attempt fails); a commit selected on a push has its author
identity in the ledger returned by the classification of that very push;
and no commit with that identity is ever selected again from any later
event sequence. -/
theorem claim_C10 (ma ma' : Nat) (oracle oracle' : Nat → Nat → SendOutcome)
    (s : List String) (idx idx' : Nat) (es es' : List WrappedEventPayload)
    (commits : List PushCommit) (c : PushCommit)
    (hc : c ∈ selectedCommits commits s) :
    (botLoop ma oracle s idx es).1 = (processEvents es s).2
    ∧ (botLoop ma oracle s idx es).1 = (botLoop ma' oracle' s idx' es).1
    ∧ c.author.email ∈ (filter_github_event s ⟨some (.pushEvent commits)⟩).2
    ∧ (∀ c' ∈ selectedAcross es'
          (filter_github_event s ⟨some (.pushEvent commits)⟩).2,
        c'.author.email ≠ c.author.email) := by
  have hmem : c.author.email ∈
      (filter_github_event s ⟨some (.pushEvent commits)⟩).2 := by
    simp only [filter_github_event]
    exact selectedCommits_mem_ledger commits s c hc
  refine ⟨botLoop_ledger es ma oracle s idx, ?_, hmem, ?_⟩
  · rw [botLoop_ledger es ma oracle s idx,
      botLoop_ledger es ma' oracle' s idx']
  · exact selectedAcross_avoids es' _ c.author.email hmem

/-- C10 witness: bob's commit is selected on a ledger seeded with alice;
afterwards bob's identity is in the ledger and never selected again, with
the ledger independent of posting outcomes (all-failing vs all-succeeding
oracles). -/
theorem claim_C10_witness :
    (⟨⟨"Bob", "bob@x"⟩, "m2", "u2", true⟩ : PushCommit) ∈
      selectedCommits [⟨⟨"Bob", "bob@x"⟩, "m2", "u2", true⟩] ["alice@x"]
    ∧ ((botLoop 3 (fun _ _ => SendOutcome.errStatus 503) ["alice@x"] 0
        [⟨some (.pushEvent [⟨⟨"Bob", "bob@x"⟩, "m2", "u2", true⟩])⟩]).1 =
      (processEvents
        [⟨some (.pushEvent [⟨⟨"Bob", "bob@x"⟩, "m2", "u2", true⟩])⟩]
        ["alice@x"]).2
    ∧ (botLoop 3 (fun _ _ => SendOutcome.errStatus 503) ["alice@x"] 0
        [⟨some (.pushEvent [⟨⟨"Bob", "bob@x"⟩, "m2", "u2", true⟩])⟩]).1 =
      (botLoop 1 (fun _ _ => SendOutcome.ok) ["alice@x"] 5
        [⟨some (.pushEvent [⟨⟨"Bob", "bob@x"⟩, "m2", "u2", true⟩])⟩]).1
    ∧ "bob@x" ∈ (filter_github_event ["alice@x"]
        ⟨some (.pushEvent [⟨⟨"Bob", "bob@x"⟩, "m2", "u2", true⟩])⟩).2
    ∧ (∀ c' ∈ selectedAcross
          [⟨some (.pushEvent [⟨⟨"Bob", "bob@x"⟩, "m2", "u2", true⟩])⟩]
          (filter_github_event ["alice@x"]
            ⟨some (.pushEvent [⟨⟨"Bob", "bob@x"⟩, "m2", "u2", true⟩])⟩).2,
        c'.author.email ≠ "bob@x")) :=
  ⟨by decide,
    claim_C10 3 1 (fun _ _ => SendOutcome.errStatus 503)
      (fun _ _ => SendOutcome.ok) ["alice@x"] 0 5
      [⟨some (.pushEvent [⟨⟨"Bob", "bob@x"⟩, "m2", "u2", true⟩])⟩]
      [⟨some (.pushEvent [⟨⟨"Bob", "bob@x"⟩, "m2", "u2", true⟩])⟩]
      [⟨⟨"Bob", "bob@x"⟩, "m2", "u2", true⟩]
      ⟨⟨"Bob", "bob@x"⟩, "m2", "u2", true⟩
      (by decide)⟩

/-- C3 (code bug, evaluated at the failing input): with `per_page = 2`
(the very value the repository's own test configures as
`fetch_pages_per_request`) and a 3-page commit history, seeding advances
the page number by `per_page` after each fetch — fetching pages 1, 2, 4 —
so page 3 is never fetched and carol, a commit author of the branch's
history, is missing from the seeded set, contrary to "every page of the
paginated history is fetched and consumed". -/
theorem claim_C3_bug :
    "carol@x" ∈ historyAuthorEmails
      ⟨[[some ⟨"Alice", "alice@x"⟩], [some ⟨"Bob", "bob@x"⟩],
        [some ⟨"Carol", "carol@x"⟩]]⟩
    ∧ "carol@x" ∉ gather_announced_contributors
      ⟨[[some ⟨"Alice", "alice@x"⟩], [some ⟨"Bob", "bob@x"⟩],
        [some ⟨"Carol", "carol@x"⟩]]⟩ 2
    ∧ "alice@x" ∈ gather_announced_contributors
      ⟨[[some ⟨"Alice", "alice@x"⟩], [some ⟨"Bob", "bob@x"⟩],
        [some ⟨"Carol", "carol@x"⟩]]⟩ 2
    ∧ "bob@x" ∈ gather_announced_contributors
      ⟨[[some ⟨"Alice", "alice@x"⟩], [some ⟨"Bob", "bob@x"⟩],
        [some ⟨"Carol", "carol@x"⟩]]⟩ 2 := by
  decide

/-- C4: the poll cycle leaves the cursor unchanged on a fetch error and on
a no-new-data (HTTP 304) response — no body, the current etag echoed back —
forwarding nothing in either case, so the next cycle re-polls from the same
cursor; and a successful fetch made with a stored cursor forwards exactly
the payload-bearing activity records of the returned page, in order, and
in the same step sets the cursor to the returned token. -/
theorem claim_C4 :
    (∀ etag : Option String, pollStep etag .fetchErr = ([], etag))
    ∧ (∀ (etag : Option String) (r : Etagged), r.value = none →
        r.etag = etag → pollStep etag (.fetchOk r) = ([], etag))
    ∧ (∀ (t : String) (r : Etagged) evs, r.value = some evs →
        pollStep (some t) (.fetchOk r) = (evs.filterMap id, r.etag))
    ∧ (∀ (etag : Option String) rs,
        runPoll etag (.fetchErr :: rs) =
          ([] :: (runPoll etag rs).1, (runPoll etag rs).2)) := by
  refine ⟨fun _ => rfl, ?_, ?_, fun etag rs => rfl⟩
  · rintro etag ⟨re, rv⟩ hv he
    simp only at hv he
    subst hv
    subst he
    cases re <;> rfl
  · rintro t ⟨re, rv⟩ evs hv
    simp only at hv
    subst hv
    rfl

/-- C4 witness: a concrete error cycle, 304 cycle, and data cycle. -/
theorem claim_C4_witness :
    pollStep (some "t") .fetchErr = ([], some "t")
    ∧ pollStep (some "t") (.fetchOk ⟨some "t", none⟩) = ([], some "t")
    ∧ pollStep (some "t") (.fetchOk ⟨some "u", some [some ⟨none⟩]⟩) =
        ([⟨none⟩], some "u")
    ∧ runPoll (some "t") [.fetchErr] = ([[]], some "t") :=
  ⟨claim_C4.1 (some "t"),
   claim_C4.2.1 (some "t") ⟨some "t", none⟩ rfl rfl,
   by simpa using
     claim_C4.2.2.1 "t" ⟨some "u", some [some ⟨none⟩]⟩ [some ⟨none⟩] rfl,
   by simpa using claim_C4.2.2.2 (some "t") []⟩

/-- C9: a fetch made while the stored etag is still `None` forwards no
activity item (the fetch only establishes the baseline etag, which is
stored), and items are forwarded only from fetches made with a previously
stored etag. -/
theorem claim_C9 :
    (∀ r : FetchResult, (pollStep none r).1 = [])
    ∧ (∀ r : Etagged, pollStep none (.fetchOk r) = ([], r.etag))
    ∧ (∀ (etag : Option String) (r : FetchResult),
        (pollStep etag r).1 ≠ [] → etag ≠ none) := by
  have hnone : ∀ r : FetchResult, (pollStep none r).1 = [] := by
    rintro (_ | r)
    · rfl
    · rfl
  refine ⟨hnone, fun r => rfl, ?_⟩
  intro etag r h heq
  subst heq
  exact h (hnone r)

/-- C9 witness: a first fetch with items (all discarded, etag stored) and a
later fetch with a stored etag that forwards an item. -/
theorem claim_C9_witness :
    (pollStep none (.fetchOk ⟨some "t", some [some ⟨none⟩]⟩)).1 = []
    ∧ pollStep none (.fetchOk ⟨some "t", some [some ⟨none⟩]⟩) =
        ([], some "t")
    ∧ (pollStep (some "t") (.fetchOk ⟨some "u", some [some ⟨none⟩]⟩)).1 ≠ []
    ∧ (some "t" : Option String) ≠ none :=
  ⟨claim_C9.1 _, claim_C9.2.1 _, by decide,
   claim_C9.2.2 (some "t") (.fetchOk ⟨some "u", some [some ⟨none⟩]⟩)
     (by decide)⟩

lemma postAttempts_transient (responses : Nat → SendOutcome)
    (h : ∀ k, responses k ≠ .ok ∧ isClientError (responses k) = false) :
    ∀ (n attempt : Nat), postAttempts responses attempt n =
      ⟨n, (List.range n).map (fun k => 3 * (attempt + k)), false⟩ := by
  intro n
  induction n with
  | zero => intro attempt; rfl
  | succ m ih =>
    intro attempt
    rcases hre : responses attempt with _ | st | _
    · exact absurd hre (h attempt).1
    · have hce : isClientError (SendOutcome.errStatus st) = false :=
        hre ▸ (h attempt).2
      simp only [postAttempts, hre, hce, Bool.false_eq_true, if_false,
        ih (attempt + 1), PostLog.mk.injEq, true_and, and_true]
      rw [List.range_succ_eq_map, List.map_cons, List.map_map]
      refine List.cons_eq_cons.mpr ⟨by omega, ?_⟩
      apply List.map_congr_left
      intro k _
      simp only [Function.comp_apply]
      omega
    · have hce : isClientError SendOutcome.errNoStatus = false := rfl
      simp only [postAttempts, hre, hce, Bool.false_eq_true, if_false,
        ih (attempt + 1), PostLog.mk.injEq, true_and, and_true]
      rw [List.range_succ_eq_map, List.map_cons, List.map_map]
      refine List.cons_eq_cons.mpr ⟨by omega, ?_⟩
      apply List.map_congr_left
      intro k _
      simp only [Function.comp_apply]
      omega

lemma postAttempts_le (responses : Nat → SendOutcome) :
    ∀ (n attempt : Nat), (postAttempts responses attempt n).attempts ≤ n := by
  intro n
  induction n with
  | zero => intro _; exact Nat.le_refl 0
  | succ m ih =>
    intro attempt
    rcases hre : responses attempt with _ | st | _
    · simp [postAttempts, hre]
    · by_cases hc : isClientError (SendOutcome.errStatus st) = true
      · simp [postAttempts, hre, hc]
      · simp only [Bool.not_eq_true] at hc
        simp only [postAttempts, hre, hc, Bool.false_eq_true, if_false]
        have := ih (attempt + 1)
        omega
    · simp only [postAttempts, hre, isClientError, Bool.false_eq_true,
        if_false]
      have := ih (attempt + 1)
      omega

/-- C5 counterexample: with `max_retries` left unconfigured the client
computes `max_attempts = 1` (src/x.rs:91), so a post failing with a
transient HTTP 503 makes exactly one send attempt — not the claimed
default of three. -/
theorem claim_C5_counterexample :
    clientMaxAttempts none = 1
    ∧ (post_tweet (clientMaxAttempts none)
        (fun _ => SendOutcome.errStatus 503)).attempts = 1
    ∧ (1 : Nat) ≠ 3 := by
  decide

/-- C5 (amended): the post client makes up to `N` send attempts, where
`N = max_retries + 1` when configured and `N = 1` when not (no retries by
default); the sleep after failed attempt `k` is `3 * k` seconds, so the
delays grow strictly; a first response with a 4xx client-error status
aborts immediately with exactly one attempt and no sleep; a post whose
responses are all transient (non-4xx errors) is attempted exactly `N`
times; and the attempt count never exceeds `N`. -/
theorem claim_C5_amended (N r : Nat) (responses : Nat → SendOutcome)
    (hN : 1 ≤ N) :
    clientMaxAttempts none = 1
    ∧ clientMaxAttempts (some r) = r + 1
    ∧ (isClientError (responses 1) = true →
        post_tweet N responses = ⟨1, [], false⟩)
    ∧ ((∀ k, responses k ≠ .ok ∧ isClientError (responses k) = false) →
        (post_tweet N responses).attempts = N ∧
        (post_tweet N responses).sleeps =
          (List.range N).map (fun k => 3 * (k + 1)) ∧
        (post_tweet N responses).sleeps.Pairwise (· < ·))
    ∧ (post_tweet N responses).attempts ≤ N := by
  refine ⟨rfl, rfl, ?_, ?_, postAttempts_le responses N 1⟩
  · intro hce
    obtain ⟨m, rfl⟩ : ∃ m, N = m + 1 :=
      ⟨N - 1, by omega⟩
    rcases hre : responses 1 with _ | st | _
    · rw [hre] at hce; exact absurd hce (by simp [isClientError])
    · rw [hre] at hce
      simp [post_tweet, postAttempts, hre, hce]
    · rw [hre] at hce; exact absurd hce (by simp [isClientError])
  · intro h
    have hrun := postAttempts_transient responses h N 1
    rw [post_tweet, hrun]
    refine ⟨rfl, ?_, ?_⟩
    · apply List.map_congr_left
      intro k _
      omega
    · exact (List.pairwise_lt_range N).map _ (fun a b hab => by omega)

/-- C5 witness: `N = 3`; a persistent HTTP 401 gives one attempt, a
persistent HTTP 503 gives three attempts with sleeps 3, 6, 9. -/
theorem claim_C5_amended_witness :
    (1 : Nat) ≤ 3
    ∧ post_tweet 3 (fun _ => SendOutcome.errStatus 401) = ⟨1, [], false⟩
    ∧ (post_tweet 3 (fun _ => SendOutcome.errStatus 503)).attempts = 3
    ∧ (post_tweet 3 (fun _ => SendOutcome.errStatus 503)).sleeps = [3, 6, 9]
    ∧ (post_tweet 3
        (fun _ => SendOutcome.errStatus 503)).sleeps.Pairwise (· < ·) := by
  have h401 := claim_C5_amended 3 0 (fun _ => SendOutcome.errStatus 401)
    (by decide)
  have h503 := (claim_C5_amended 3 0 (fun _ => SendOutcome.errStatus 503)
    (by decide)).2.2.2.1 (fun k => by decide)
  refine ⟨by decide, h401.2.2.1 (by decide), h503.1, ?_, h503.2.2⟩
  rw [h503.2.1]
  decide

lemma sub64_eq (a b : Nat) (hba : b ≤ a) (ha : a < 2 ^ 64) :
    sub64 a b = a - b := by
  unfold sub64
  omega

lemma send_tweet_inWindow (cap window k t0 t : Nat) (hk : k < cap)
    (ht0 : t0 ≤ t) (htw : t < t0 + window) (hb : t < 2 ^ 64) :
    send_tweet cap window ⟨k, t0⟩ t = (0, ⟨k + 1, t0⟩) := by
  simp only [send_tweet, rateLimitCheck, sub64_eq t t0 ht0 hb]
  rw [if_neg (by omega), if_neg (by omega)]

lemma send_tweet_blocked (cap window k t0 t : Nat) (hk : cap ≤ k)
    (ht0 : t0 ≤ t) (htw : t < t0 + window) (hb : t < 2 ^ 64) :
    send_tweet cap window ⟨k, t0⟩ t = (window - (t - t0), ⟨1, t⟩) := by
  simp only [send_tweet, rateLimitCheck, sub64_eq t t0 ht0 hb]
  rw [if_neg (by omega), if_pos (by omega)]

lemma send_tweet_reset (cap window k t0 t : Nat) (ht0 : t0 ≤ t)
    (hw : t0 + window ≤ t) (hb : t < 2 ^ 64) :
    send_tweet cap window ⟨k, t0⟩ t = (0, ⟨1, t⟩) := by
  simp only [send_tweet, rateLimitCheck, sub64_eq t t0 ht0 hb]
  rw [if_pos (by omega)]

lemma runSends_inWindow (cap window t0 : Nat) :
    ∀ (ts : List Nat) (k : Nat), k + ts.length ≤ cap →
      (∀ t ∈ ts, t0 ≤ t ∧ t < t0 + window ∧ t < 2 ^ 64) →
      runSends cap window ⟨k, t0⟩ ts =
        (List.replicate ts.length 0, ⟨k + ts.length, t0⟩) := by
  intro ts
  induction ts with
  | nil => intro k _ _; rfl
  | cons t ts ih =>
    intro k hk hin
    obtain ⟨ht0, htw, hb⟩ := hin t (List.mem_cons_self ..)
    have hstep := send_tweet_inWindow cap window k t0 t (by
      simp only [List.length_cons] at hk; omega) ht0 htw hb
    simp only [runSends, hstep,
      ih (k + 1) (by simp only [List.length_cons] at hk ⊢; omega)
        (fun u hu => hin u (List.mem_cons_of_mem _ hu))]
    simp only [List.length_cons, List.replicate_succ, Prod.mk.injEq,
      RLState.mk.injEq, true_and, and_true]
    omega

lemma runSends_append (cap window : Nat) (xs ys : List Nat) :
    ∀ st : RLState, runSends cap window st (xs ++ ys) =
      ((runSends cap window st xs).1 ++
        (runSends cap window (runSends cap window st xs).2 ys).1,
       (runSends cap window (runSends cap window st xs).2 ys).2) := by
  induction xs with
  | nil => intro st; rfl
  | cons x xs ih =>
    intro st
    simp only [List.cons_append, runSends, List.append_eq, ih]

/-- C6: rate limiting of outbound successful sends with the code's
constants (capacity `TWEETS_PER_WINDOW = 50` per window
`RATE_LIMIT_WINDOW = 900` seconds).
(1) One successful send never leaves the counter above the capacity: a call
finding the counter at capacity blocks (or the window resets) and restarts
the count, so the counter never exceeds the capacity without an intervening
blocking wait or window reset.
(2) If the capacity's worth of sends happen inside the window `[t0, t0+W)`
of a client created at `t0`, the next (capacity+1-th) send issued at
`u < t0 + W` is blocked for `W - (u - t0)` seconds — resuming exactly at
the window boundary `t0 + W` — while the first capacity sends are not
delayed at all.
(3) A capacity's worth of sends spread across two consecutive windows
(issued in nondecreasing order within the second) are never blocked. -/
theorem claim_C6 :
    (∀ (st : RLState) (now : Nat),
        (send_tweet TWEETS_PER_WINDOW RATE_LIMIT_WINDOW st now).2.tweet_count
          ≤ TWEETS_PER_WINDOW)
    ∧ (∀ (t0 u : Nat) (ts : List Nat), ts.length = TWEETS_PER_WINDOW →
        (∀ t ∈ ts, t0 ≤ t ∧ t < t0 + RATE_LIMIT_WINDOW) →
        t0 ≤ u → u < t0 + RATE_LIMIT_WINDOW →
        t0 + RATE_LIMIT_WINDOW < 2 ^ 64 →
        (runSends TWEETS_PER_WINDOW RATE_LIMIT_WINDOW ⟨0, t0⟩
            (ts ++ [u])).1 =
          List.replicate TWEETS_PER_WINDOW 0 ++
            [RATE_LIMIT_WINDOW - (u - t0)]
        ∧ u + (RATE_LIMIT_WINDOW - (u - t0)) = t0 + RATE_LIMIT_WINDOW)
    ∧ (∀ (t0 : Nat) (xs ys : List Nat),
        xs.length + ys.length ≤ TWEETS_PER_WINDOW →
        (∀ t ∈ xs, t0 ≤ t ∧ t < t0 + RATE_LIMIT_WINDOW) →
        (∀ t ∈ ys, t0 + RATE_LIMIT_WINDOW ≤ t ∧
          t < t0 + 2 * RATE_LIMIT_WINDOW) →
        ys.Sorted (· ≤ ·) →
        t0 + 2 * RATE_LIMIT_WINDOW < 2 ^ 64 →
        ∀ w ∈ (runSends TWEETS_PER_WINDOW RATE_LIMIT_WINDOW ⟨0, t0⟩
            (xs ++ ys)).1, w = 0) := by
  refine ⟨?_, ?_, ?_⟩
  · intro st now
    simp only [send_tweet, rateLimitCheck]
    split_ifs with h1 h2
    · simp [TWEETS_PER_WINDOW]
    · simp [TWEETS_PER_WINDOW]
    · simp only [Bool.not_eq_true] at h2
      simp only [not_le] at h2
      simp [TWEETS_PER_WINDOW] at h2 ⊢
      omega
  · intro t0 u ts hlen hin ht0u huw hb
    have hts := runSends_inWindow TWEETS_PER_WINDOW RATE_LIMIT_WINDOW t0 ts 0
      (by omega)
      (fun t ht => ⟨(hin t ht).1, (hin t ht).2, by have := (hin t ht).2; omega⟩)
    have hu := send_tweet_blocked TWEETS_PER_WINDOW RATE_LIMIT_WINDOW
      (0 + ts.length) t0 u (by omega) ht0u huw (by omega)
    rw [runSends_append]
    rw [hts]
    simp only [runSends, hu]
    constructor
    · rw [hlen]
    · omega
  · intro t0 xs ys hlen hxs hys hsort hb
    have hxrun := runSends_inWindow TWEETS_PER_WINDOW RATE_LIMIT_WINDOW t0 xs 0
      (by omega)
      (fun t ht => ⟨(hxs t ht).1, (hxs t ht).2, by have := (hxs t ht).2; omega⟩)
    rw [runSends_append, hxrun]
    intro w hw
    rcases List.mem_append.mp hw with hw | hw
    · exact List.eq_of_mem_replicate hw
    · rcases ys with _ | ⟨y, ys'⟩
      · simp [runSends] at hw
      · obtain ⟨hy0, hy2⟩ := hys y (List.mem_cons_self ..)
        have hyreset := send_tweet_reset TWEETS_PER_WINDOW RATE_LIMIT_WINDOW
          (0 + xs.length) t0 y (by omega) hy0 (by omega)
        have hrest := runSends_inWindow TWEETS_PER_WINDOW RATE_LIMIT_WINDOW y
          ys' 1
          (by simp only [List.length_cons] at hlen; omega)
          (by
            intro t ht
            obtain ⟨ht1, ht2⟩ := hys t (List.mem_cons_of_mem _ ht)
            refine ⟨?_, by omega, by omega⟩
            exact (List.sorted_cons.mp hsort).1 t ht)
        simp only [runSends, hyreset, hrest] at hw
        rcases List.mem_cons.mp hw with rfl | hw
        · rfl
        · exact List.eq_of_mem_replicate hw

/-- C6 witness: 51 sends at time 0 — the 51st is blocked for the full
900-second window, resuming at the boundary; and 25 sends at time 0 plus
25 sends at time 900 (the next window) are never blocked. -/
theorem claim_C6_witness :
    ((List.replicate 50 0).length = TWEETS_PER_WINDOW
      ∧ (runSends TWEETS_PER_WINDOW RATE_LIMIT_WINDOW ⟨0, 0⟩
          (List.replicate 50 0 ++ [0])).1 =
        List.replicate TWEETS_PER_WINDOW 0 ++ [RATE_LIMIT_WINDOW - (0 - 0)]
      ∧ 0 + (RATE_LIMIT_WINDOW - (0 - 0)) = 0 + RATE_LIMIT_WINDOW)
    ∧ (∀ w ∈ (runSends TWEETS_PER_WINDOW RATE_LIMIT_WINDOW ⟨0, 0⟩
          (List.replicate 25 0 ++ List.replicate 25 900)).1, w = 0)
    ∧ (send_tweet TWEETS_PER_WINDOW RATE_LIMIT_WINDOW ⟨50, 0⟩
        0).2.tweet_count ≤ TWEETS_PER_WINDOW := by
  refine ⟨⟨by decide, ?_⟩, ?_, claim_C6.1 ⟨50, 0⟩ 0⟩
  · exact claim_C6.2.1 0 0 (List.replicate 50 0) (by decide)
      (by intro t ht; rw [List.eq_of_mem_replicate ht];
          exact ⟨Nat.le_refl 0, by decide⟩)
      (Nat.le_refl 0) (by decide) (by decide)
  · exact claim_C6.2.2 0 (List.replicate 25 0) (List.replicate 25 900)
      (by decide)
      (by intro t ht; rw [List.eq_of_mem_replicate ht];
          exact ⟨Nat.le_refl 0, by decide⟩)
      (by intro t ht; rw [List.eq_of_mem_replicate ht];
          exact ⟨by decide, by decide⟩)
      (by decide)
      (by decide)

/-- C7 counterexample: a published release with display name "Delta 1.2"
and tag "v1.2.0" — the webhook handler `handle_release`
(src/webhook/handler.rs:123-145, one of the claim's cited sources) formats
its announcement from the tag name even though the display name is set,
refuting "the announcement's version label equals the release's display
name when set". -/
theorem claim_C7_counterexample :
    handle_release ⟨"published", ⟨"v1.2.0", some "Delta 1.2", "https://r"⟩⟩ =
      some ("v1.2.0", "https://r")
    ∧ (⟨"published", ⟨"v1.2.0", some "Delta 1.2", "https://r"⟩⟩ :
        WebhookReleaseEvent).release.name = some "Delta 1.2"
    ∧ ("v1.2.0" : String) ≠ "Delta 1.2" := by
  decide

/-- C7 (amended): a release activity yields a Release Announcement iff the
action is exactly `published` — in the poll-loop classifier
(`filter_github_event`) and in the webhook handler (`handle_release`)
alike, so created/edited/deleted releases yield none; the classifier's
version label is the release's display name when set, else its tag name,
while the webhook handler's version label is always the tag name (its
display name is ignored). -/
theorem claim_C7_amended (s : List String) (payload : ReleasePayload)
    (ev : WebhookReleaseEvent) :
    ((filter_github_event s ⟨some (.releaseEvent payload)⟩).1 ≠ none ↔
        payload.action = .published)
    ∧ (payload.action = .published →
        (filter_github_event s ⟨some (.releaseEvent payload)⟩).1 =
          some (.release ⟨payload.release.name.getD payload.release.tag_name,
            payload.release.html_url⟩))
    ∧ (payload.action ≠ .published →
        (filter_github_event s ⟨some (.releaseEvent payload)⟩).1 = none)
    ∧ ((handle_release ev).isSome ↔ ev.action = "published")
    ∧ (ev.action = "published" →
        handle_release ev = some (ev.release.tag_name, ev.release.html_url)) := by
  by_cases hact : payload.action = .published <;>
    by_cases hev : ev.action = "published" <;>
      simp [filter_github_event, handle_release, hact, hev]

/-- C7 witness: a published release with a display name — the classifier
uses the display name, the webhook handler the tag name; an edited release
yields nothing. -/
theorem claim_C7_amended_witness :
    ((filter_github_event []
        ⟨some (.releaseEvent ⟨.published,
          ⟨some "Delta 1.2", "v1.2.0", "https://r"⟩⟩)⟩).1 ≠ none ↔
        (ReleaseEventAction.published = .published))
    ∧ (ReleaseEventAction.published = .published →
        (filter_github_event []
          ⟨some (.releaseEvent ⟨.published,
            ⟨some "Delta 1.2", "v1.2.0", "https://r"⟩⟩)⟩).1 =
          some (.release ⟨(some "Delta 1.2").getD "v1.2.0", "https://r"⟩))
    ∧ (ReleaseEventAction.published ≠ .published →
        (filter_github_event []
          ⟨some (.releaseEvent ⟨.published,
            ⟨some "Delta 1.2", "v1.2.0", "https://r"⟩⟩)⟩).1 = none)
    ∧ ((handle_release ⟨"published",
          ⟨"v1.2.0", some "Delta 1.2", "https://r"⟩⟩).isSome ↔
        ("published" : String) = "published")
    ∧ (("published" : String) = "published" →
        handle_release ⟨"published", ⟨"v1.2.0", some "Delta 1.2", "https://r"⟩⟩
          = some ("v1.2.0", "https://r")) :=
  claim_C7_amended [] ⟨.published, ⟨some "Delta 1.2", "v1.2.0", "https://r"⟩⟩
    ⟨"published", ⟨"v1.2.0", some "Delta 1.2", "https://r"⟩⟩

/-- C8: a request whose `x-github-event` kind is none of `push`, `release`
or `ping` is answered 501 Not Implemented, whatever the body parses as and
whatever the handlers would return; a request of a matching kind whose body
fails to parse as that kind's payload type is answered 422 Unprocessable
Entity. -/
theorem claim_C8 (t : String) (p1 p2 p3 h1 h2 : Bool)
    (ht : t ≠ "ping") (ht2 : t ≠ "push") (ht3 : t ≠ "release") :
    handle_webhook (some t) p1 p2 p3 h1 h2 = .notImplemented
    ∧ handle_webhook (some "ping") false p2 p3 h1 h2 = .unprocessableEntity
    ∧ handle_webhook (some "push") p1 false p3 h1 h2 = .unprocessableEntity
    ∧ handle_webhook (some "release") p1 p2 false h1 h2 =
        .unprocessableEntity := by
  refine ⟨?_, by simp [handle_webhook], by simp [handle_webhook],
    by simp [handle_webhook]⟩
  simp [handle_webhook, ht, ht2, ht3]

/-- C8 witness: a `star` event gets 501; unparsable ping/push/release
bodies get 422. -/
theorem claim_C8_witness :
    handle_webhook (some "star") true true true true true = .notImplemented
    ∧ handle_webhook (some "ping") false true true true true =
        .unprocessableEntity
    ∧ handle_webhook (some "push") true false true true true =
        .unprocessableEntity
    ∧ handle_webhook (some "release") true true false true true =
        .unprocessableEntity :=
  claim_C8 "star" true true true true true (by decide) (by decide)
    (by decide)

end XBot
